import Mathlib

/-!
# Verification of the model/procedure comparison pipelines

This development embeds, in Lean, the reusable logic of the two notebook
pipelines of the repository: the classification pipeline over the wine
dataset (split, standardize, run a panel of classifiers, build a sorted
comparison report) and the inferential-statistics pipeline over the
diabetes dataset (t-tests with significance verdicts, a median split of
the rows, quartile grouping for ANOVA).

Numeric values are modelled by `ℚ` (exact rationals) except where a square
root is inherent (the standard deviation of the standardization stage),
where `ℝ` is used. Fallible operations return `Except`.
-/

namespace Spec2Proof

/-! ## Significance verdicts (t-test cells of the statistics notebook)

Each t-test cell ends with the same branch:
`if p_value < 0.05: print("Reject ...") else: print("Fail to reject ...")`.
-/

/-- The two possible wordings printed by every t-test cell. -/
inductive Verdict where
  | reject
  | failToReject
deriving DecidableEq

/-- The significance branch shared by the one-sample, two-sample and paired
t-test cells: reject exactly when the p-value is below the fixed alpha 0.05. -/
def verdict (pValue : ℚ) : Verdict :=
  if pValue < 0.05 then Verdict.reject else Verdict.failToReject

/-! ## Report building (model-comparison cell of the wine notebook)

The cell builds a table of (model name, accuracy) pairs in panel order and
runs `model_comparison.sort_values(by='Accuracy', ascending=False)`. On
inputs of this size pandas' descending sort is the stable descending sort
(the underlying ascending argsort is stable and pandas reverses the input
and the output, which turns it into a stable descending sort); it is
embedded here as an insertion sort by the metric-greater-or-equal
relation, which places earlier entries before later metric-equal ones. -/

/-- One row of the comparison table: a procedure name and its headline
scalar metric (accuracy for the classifiers). -/
structure ProcedureResult where
  name : String
  metric : ℚ
deriving DecidableEq

/-- The descending comparison used by `sort_values(by='Accuracy', ascending=False)`. -/
def metricGE (a b : ProcedureResult) : Prop :=
  b.metric ≤ a.metric

instance : DecidableRel metricGE :=
  fun a b => inferInstanceAs (Decidable (b.metric ≤ a.metric))

instance : IsTotal ProcedureResult metricGE :=
  ⟨fun a b => le_total b.metric a.metric⟩

instance : IsTrans ProcedureResult metricGE :=
  ⟨fun _ _ _ h1 h2 => le_trans h2 h1⟩

/-- `model_comparison.sort_values(by='Accuracy', ascending=False)`:
the stable sort of the panel's results by metric, descending. -/
def build (results : List ProcedureResult) : List ProcedureResult :=
  results.insertionSort metricGE

/-! ## Split stage (wine notebook, `train_test_split`) -/

/-- One step of a linear congruential generator (glibc constants),
the deterministic pseudo-random stream driving the seeded shuffle. -/
def lcg (s : ℕ) : ℕ :=
  (1103515245 * s + 12345) % 2 ^ 31

/-- The first `n` states of the generator started from `seed`. -/
def lcgStream (seed : ℕ) : ℕ → List ℕ
  | 0 => []
  | n + 1 => lcg seed :: lcgStream (lcg seed) n

/-- Comparison of key/row pairs by key. -/
def keyLE {α : Type*} (a b : ℕ × α) : Prop :=
  a.1 ≤ b.1

instance {α : Type*} : DecidableRel (keyLE (α := α)) :=
  fun a b => Nat.decLe a.1 b.1

/-- The deterministic seeded permutation of the rows: pair every row with a
pseudo-random key drawn from the seed and order the pairs by key. -/
def shuffle {α : Type*} (seed : ℕ) (rows : List α) : List α :=
  (((lcgStream seed rows.length).zip rows).insertionSort keyLE).map Prod.snd

/-- The error vocabulary of the split stage. -/
inductive SplitError where
  | invalidRatioError
deriving DecidableEq

/-- Modelled from the spec: the notebook delegates the split to the external
library routine `train_test_split(X, y, test_size=0.2, random_state=42)`,
whose body is not part of the repository. The spec describes it as a
deterministic seeded partition — every row appears in exactly one of the two
output subsets — that fails with `InvalidRatio` when the ratio is outside
(0, 1). The test subset takes `⌈testSize * n⌉` rows of the seeded shuffle and
the training subset the rest, and the result is returned in the source's
order (train, test). -/
def train_test_split {α : Type*} (rows : List α) (testSize : ℚ) (randomState : ℕ) :
    Except SplitError (List α × List α) :=
  if 0 < testSize ∧ testSize < 1 then
    let nTest := (⌈testSize * (rows.length : ℚ)⌉).toNat
    let shuffled := shuffle randomState rows
    Except.ok (shuffled.drop nTest, shuffled.take nTest)
  else
    Except.error SplitError.invalidRatioError

/-! ## Standardization stage (wine notebook, `StandardScaler`)

`scaler.fit_transform(X_train)` computes the per-feature mean and (biased)
standard deviation of the training subset and rescales each value to
`(x - mean) / std`. The real-valued embedding below carries the exact
mathematics of one feature column; the `ℚ`-valued `fit_transform` carries
the fitted parameters and the failure behaviour described by the spec. -/

/-- Arithmetic mean of a real column. -/
noncomputable def meanR (l : List ℝ) : ℝ :=
  l.sum / l.length

/-- Biased (population) variance of a real column, as `StandardScaler` uses. -/
noncomputable def varianceR (l : List ℝ) : ℝ :=
  (l.map fun x => (x - meanR l) ^ 2).sum / l.length

/-- Population standard deviation of a real column. -/
noncomputable def stdR (l : List ℝ) : ℝ :=
  Real.sqrt (varianceR l)

/-- The fitted per-feature rescaling `(x - mean) / std`; its parameters come
from `train` only. -/
noncomputable def standardize (train : List ℝ) (x : ℝ) : ℝ :=
  (x - meanR train) / stdR train

/-- `scaler.fit_transform` on one feature column: fit on the column and
rescale that same column. -/
noncomputable def fitTransformFeature (train : List ℝ) : List ℝ :=
  train.map (standardize train)

/-- Arithmetic mean of a rational column. -/
def meanQ (l : List ℚ) : ℚ :=
  l.sum / l.length

/-- Biased (population) variance of a rational column. -/
def varianceQ (l : List ℚ) : ℚ :=
  (l.map fun x => (x - meanQ l) ^ 2).sum / l.length

/-- The fitted standardization parameters: one (mean, variance) pair per
feature column, fitted from the training subset only. -/
structure Transform where
  params : List (ℚ × ℚ)
deriving DecidableEq

/-- The error vocabulary of the standardization stage. -/
inductive ScaleError where
  | degenerateFeature
deriving DecidableEq

/-- Modelled from the spec: the notebook delegates fitting to the external
`StandardScaler.fit_transform`, whose body is not part of the repository.
The spec describes `fit_transform(train)` as computing per-feature mean and
standard deviation from `train` only and failing with `DegenerateFeature`
if any feature has zero variance (division-by-zero guard); it succeeds,
returning the fitted `Transform`, exactly when every feature column has
non-zero variance. -/
def fit_transform (train : List (List ℚ)) : Except ScaleError Transform :=
  if train.all fun col => varianceQ col != 0 then
    Except.ok ⟨train.map fun col => (meanQ col, varianceQ col)⟩
  else
    Except.error ScaleError.degenerateFeature

/-! ## Panel runs and failure isolation -/

/-- The outcome of fitting and scoring one procedure: its headline metric,
or the fit failure described by the spec's error taxonomy. -/
inductive FitOutcome where
  | ok (metric : ℚ)
  | fitFailure
deriving DecidableEq

/-- One procedure of the panel with the outcome of its (independent) run. -/
structure PanelProcedure where
  name : String
  outcome : FitOutcome
deriving DecidableEq

/-- Modelled from the spec: the notebook runs each classifier in its own
cell and collects `(name, accuracy)` pairs by hand; the panel-level
behaviour — a procedure that cannot fit fails with `FitFailure`, is caught
at the panel level and omitted from the report, while every other procedure
still contributes — is part of the spec's harness and has no body in the
repository. `runPanel` keeps one `(name, metric)` entry per succeeding
procedure, in panel order, and drops the failing ones. -/
def runPanel (panel : List PanelProcedure) : List (String × ℚ) :=
  panel.filterMap fun p =>
    match p.outcome with
    | FitOutcome.ok m => some (p.name, m)
    | FitOutcome.fitFailure => none

/-! ## The loaded dataset and the ANOVA grouping stage (statistics notebook)

The loaded dataset is embedded as named feature columns. The ANOVA cell
executes `df['bmi_quartile'] = pd.qcut(df['bmi'], q=4, labels=[...])`,
writing a new column into the loaded frame. -/

/-- The values of one dataset column: numeric feature values, or the
categorical labels produced by `pd.qcut`. -/
inductive ColumnData where
  | nums (vals : List ℚ)
  | labels (vals : List String)
deriving DecidableEq

/-- A tabular dataset: named columns. -/
abbrev Dataset := List (String × ColumnData)

/-- Numeric column lookup by name (empty when absent or non-numeric). -/
def getColumn (df : Dataset) (c : String) : List ℚ :=
  match (df.find? fun col => col.1 == c).map Prod.snd with
  | some (ColumnData.nums vals) => vals
  | _ => []

/-- Ascending sort of a rational column. -/
def sortedAsc (l : List ℚ) : List ℚ :=
  l.insertionSort (· ≤ ·)

/-- The linearly interpolated quantile (pandas' default method) of a column:
position `q * (n - 1)` in the ascending sort, interpolating between the two
neighbouring order statistics. -/
def quantileQ (l : List ℚ) (q : ℚ) : ℚ :=
  let s := sortedAsc l
  let pos : ℚ := q * ((s.length : ℚ) - 1)
  let i : ℕ := (⌊pos⌋).toNat
  let lower := s.getD i 0
  let upper := s.getD (i + 1) lower
  lower + (pos - ⌊pos⌋) * (upper - lower)

/-- `pd.qcut(l, q=4, labels=["Q1","Q2","Q3","Q4"])`: label every value by
the quartile interval it falls in (right-closed bins, ties to the lower
bin). -/
def qcut4 (l : List ℚ) : List String :=
  let b1 := quantileQ l (1 / 4)
  let b2 := quantileQ l (1 / 2)
  let b3 := quantileQ l (3 / 4)
  l.map fun x =>
    if x ≤ b1 then "Q1" else if x ≤ b2 then "Q2" else if x ≤ b3 then "Q3" else "Q4"

/-- The ANOVA preparation step
`df['bmi_quartile'] = pd.qcut(df['bmi'], q=4, labels=["Q1","Q2","Q3","Q4"])`:
the dataset it leaves behind is the loaded dataset with one extra derived
column appended. -/
def anovaPrepStage (df : Dataset) : Dataset :=
  df ++ [("bmi_quartile", ColumnData.labels (qcut4 (getColumn df "bmi")))]

/-! ## Classification metrics (wine notebook, `accuracy_score` and
`classification_report`) -/

/-- `accuracy_score(y_test, y_pred)`: the fraction of evaluation rows whose
predicted label matches the true label. -/
def accuracy_score (yTrue yPred : List ℕ) : ℚ :=
  (((yTrue.zip yPred).countP fun p => p.1 == p.2 : ℕ) : ℚ) / yTrue.length

/-- True positives of class `c`. -/
def truePos (yTrue yPred : List ℕ) (c : ℕ) : ℕ :=
  (yTrue.zip yPred).countP fun p => p.1 == c && p.2 == c

/-- False positives of class `c`. -/
def falsePos (yTrue yPred : List ℕ) (c : ℕ) : ℕ :=
  (yTrue.zip yPred).countP fun p => p.1 != c && p.2 == c

/-- False negatives of class `c`. -/
def falseNeg (yTrue yPred : List ℕ) (c : ℕ) : ℕ :=
  (yTrue.zip yPred).countP fun p => p.1 == c && p.2 != c

/-- Per-class precision `tp / (tp + fp)` (0 when the class is never
predicted, as `classification_report` reports it). -/
def precisionC (yTrue yPred : List ℕ) (c : ℕ) : ℚ :=
  if truePos yTrue yPred c + falsePos yTrue yPred c = 0 then 0
  else (truePos yTrue yPred c : ℚ) / ((truePos yTrue yPred c : ℚ) + (falsePos yTrue yPred c : ℚ))

/-- Per-class recall `tp / (tp + fn)` (0 when the class has no true rows). -/
def recallC (yTrue yPred : List ℕ) (c : ℕ) : ℚ :=
  if truePos yTrue yPred c + falseNeg yTrue yPred c = 0 then 0
  else (truePos yTrue yPred c : ℚ) / ((truePos yTrue yPred c : ℚ) + (falseNeg yTrue yPred c : ℚ))

/-- Per-class F1, the harmonic mean `2pr/(p+r)` of precision and recall
(0 when both are 0). -/
def f1C (yTrue yPred : List ℕ) (c : ℕ) : ℚ :=
  if precisionC yTrue yPred c + recallC yTrue yPred c = 0 then 0
  else 2 * precisionC yTrue yPred c * recallC yTrue yPred c
      / (precisionC yTrue yPred c + recallC yTrue yPred c)

/-- The classes of the report: every label occurring among true or
predicted labels. -/
def classLabels (yTrue yPred : List ℕ) : Finset ℕ :=
  yTrue.toFinset ∪ yPred.toFinset

/-- The support of class `c`: its number of true evaluation rows. -/
def support (yTrue : List ℕ) (c : ℕ) : ℕ :=
  yTrue.count c

/-- The weighted-average F1 of `classification_report`: per-class F1
weighted by support over the number of evaluation rows. -/
def weightedF1 (yTrue yPred : List ℕ) : ℚ :=
  ∑ c ∈ classLabels yTrue yPred, ((support yTrue c : ℚ) / yTrue.length) * f1C yTrue yPred c

/-! ## Median split (statistics notebook, two-sample t-test cell)

The cell computes `median_target = df['target'].median()` and forms
`group1 = df[df['target'] <= median_target]['bmi']` and
`group2 = df[df['target'] > median_target]['bmi']`. -/

/-- One row of the diabetes dataset as the two-sample t-test cell uses it. -/
structure DRow where
  bmi : ℚ
  target : ℚ
deriving DecidableEq

/-- `Series.median()`: middle order statistic for odd length, mean of the
two middle order statistics for even length. -/
def medianQ (l : List ℚ) : ℚ :=
  if (sortedAsc l).length % 2 = 1 then (sortedAsc l).getD ((sortedAsc l).length / 2) 0
  else ((sortedAsc l).getD ((sortedAsc l).length / 2 - 1) 0
      + (sortedAsc l).getD ((sortedAsc l).length / 2) 0) / 2

/-- `df['target'].median()`. -/
def medianTarget (df : List DRow) : ℚ :=
  medianQ (df.map DRow.target)

/-- The rows of `df[df['target'] <= median_target]`. -/
def group1Rows (df : List DRow) : List DRow :=
  df.filter fun r => r.target ≤ medianTarget df

/-- The rows of `df[df['target'] > median_target]`. -/
def group2Rows (df : List DRow) : List DRow :=
  df.filter fun r => medianTarget df < r.target

/-- `group1`: the `bmi` column of the lower half. -/
def group1 (df : List DRow) : List ℚ :=
  (group1Rows df).map DRow.bmi

/-- `group2`: the `bmi` column of the upper half. -/
def group2 (df : List DRow) : List ℚ :=
  (group2Rows df).map DRow.bmi

/-! ## Theorems -/

/-- C3: for every statistical procedure and the fixed alpha 0.05, the
significance verdict computed from a p-value `p` is "reject" if and only if
`p < 0.05`, and otherwise "fail to reject"; `verdict` is by construction a
pure function of the p-value alone. -/
theorem verdict_reject_iff (p : ℚ) :
    (verdict p = Verdict.reject ↔ p < 0.05) ∧
    (verdict p = Verdict.failToReject ↔ ¬ p < 0.05) := by
  constructor <;> (unfold verdict; split <;> simp_all)

/-- C2: the built report is a rearrangement of the panel's results, sorted
by metric in descending order, and the sort is stable: two results with
equal metrics keep their original panel order. -/
theorem build_sorted_stable (results : List ProcedureResult) :
    (build results).Perm results ∧
    (build results).Sorted metricGE ∧
    (∀ a b : ProcedureResult, a.metric = b.metric →
      [a, b].Sublist results → [a, b].Sublist (build results)) := by
  refine ⟨List.perm_insertionSort _ _, List.sorted_insertionSort _ _, ?_⟩
  intro a b hm hs
  exact List.pair_sublist_insertionSort hm.ge hs

/-- Witness for C2 at the notebook's own panel: the Decision Tree and KNN
rows tie at 17/18 and keep their panel order in the built report. -/
theorem build_sorted_stable_witness :
    ((⟨"Decision Tree", 17 / 18⟩ : ProcedureResult).metric =
        (⟨"KNN", 17 / 18⟩ : ProcedureResult).metric) ∧
    [(⟨"Decision Tree", 17 / 18⟩ : ProcedureResult), ⟨"KNN", 17 / 18⟩].Sublist
      (build [⟨"Logistic Regression", 1⟩, ⟨"Decision Tree", 17 / 18⟩,
        ⟨"Random Forest", 1⟩, ⟨"SVM", 35 / 36⟩, ⟨"KNN", 17 / 18⟩]) :=
  ⟨rfl,
    (build_sorted_stable [⟨"Logistic Regression", 1⟩, ⟨"Decision Tree", 17 / 18⟩,
        ⟨"Random Forest", 1⟩, ⟨"SVM", 35 / 36⟩, ⟨"KNN", 17 / 18⟩]).2.2
      ⟨"Decision Tree", 17 / 18⟩ ⟨"KNN", 17 / 18⟩ rfl
      (List.Sublist.cons _ (List.Sublist.cons₂ _ (List.Sublist.cons _
        (List.Sublist.cons _ (List.Sublist.cons₂ _ List.Sublist.slnil)))))⟩

/-- C5: a procedure whose fit fails is omitted from the built report while
every succeeding procedure still contributes its result; removing the
failing procedures from the panel does not change the report, so one
failure never aborts the others. -/
theorem runPanel_isolates_failures (panel : List PanelProcedure) :
    (∀ p ∈ panel, ∀ m, p.outcome = FitOutcome.ok m → (p.name, m) ∈ runPanel panel) ∧
    (∀ e ∈ runPanel panel, ∃ p ∈ panel, p.name = e.1 ∧ p.outcome = FitOutcome.ok e.2) ∧
    runPanel panel = runPanel (panel.filter fun p => p.outcome != FitOutcome.fitFailure) := by
  refine ⟨?_, ?_, ?_⟩
  · intro p hp m hm
    exact List.mem_filterMap.mpr ⟨p, hp, by rw [hm]⟩
  · intro e he
    obtain ⟨p, hp, hf⟩ := List.mem_filterMap.mp he
    cases ho : p.outcome with
    | ok m =>
      rw [ho] at hf
      simp only [Option.some.injEq] at hf
      exact ⟨p, hp, by rw [← hf], by rw [ho, ← hf]⟩
    | fitFailure =>
      rw [ho] at hf
      cases hf
  · induction panel with
    | nil => rfl
    | cons p t ih =>
      simp only [runPanel] at ih ⊢
      rw [List.filter_cons]
      cases ho : p.outcome with
      | ok m => simp [List.filterMap_cons, ho, ih]
      | fitFailure => simp [List.filterMap_cons, ho, ih]

/-- Witness for C5: in a panel where the second procedure fails, the first
and third procedures still contribute their results. -/
theorem runPanel_isolates_failures_witness :
    ("KNN", (17 / 18 : ℚ)) ∈
      runPanel [⟨"Logistic Regression", FitOutcome.ok 1⟩, ⟨"SVM", FitOutcome.fitFailure⟩,
        ⟨"KNN", FitOutcome.ok (17 / 18)⟩] :=
  (runPanel_isolates_failures
      [⟨"Logistic Regression", FitOutcome.ok 1⟩, ⟨"SVM", FitOutcome.fitFailure⟩,
        ⟨"KNN", FitOutcome.ok (17 / 18)⟩]).1
    ⟨"KNN", FitOutcome.ok (17 / 18)⟩
    (List.Mem.tail _ (List.Mem.tail _ (List.Mem.head _))) (17 / 18) rfl

/-- C6: fitting the standardization transform succeeds exactly when every
feature column of the training subset has non-zero variance, and fails with
the `DegenerateFeature` error exactly when some feature column has zero
variance. -/
theorem fit_transform_ok_iff (train : List (List ℚ)) :
    ((∃ t, fit_transform train = Except.ok t) ↔ ∀ col ∈ train, varianceQ col ≠ 0) ∧
    (fit_transform train = Except.error ScaleError.degenerateFeature ↔
      ∃ col ∈ train, varianceQ col = 0) := by
  have hall : ((train.all fun col => varianceQ col != 0) = true) ↔
      ∀ col ∈ train, varianceQ col ≠ 0 := by
    simp [List.all_eq_true]
  by_cases h : (train.all fun col => varianceQ col != 0) = true
  · refine ⟨iff_of_true ⟨⟨train.map fun col => (meanQ col, varianceQ col)⟩,
      by rw [fit_transform, if_pos h]⟩ (hall.mp h), ?_⟩
    rw [fit_transform, if_pos h]
    constructor
    · intro hcontra
      cases hcontra
    · rintro ⟨col, hcol, hv⟩
      exact absurd hv (hall.mp h col hcol)
  · have hnot : ¬ ∀ col ∈ train, varianceQ col ≠ 0 := fun hf => h (hall.mpr hf)
    push_neg at hnot
    refine ⟨iff_of_false ?_ (fun hf => h (hall.mpr hf)),
      iff_of_true (by rw [fit_transform, if_neg h]) hnot⟩
    rintro ⟨t, ht⟩
    rw [fit_transform, if_neg h] at ht
    cases ht

/-- The pseudo-random key stream has one key per row. -/
theorem lcgStream_length (seed n : ℕ) : (lcgStream seed n).length = n := by
  induction n generalizing seed with
  | zero => rfl
  | succ k ih => simp [lcgStream, ih]

/-- The seeded shuffle is a permutation of the rows. -/
theorem shuffle_perm {α : Type*} (seed : ℕ) (rows : List α) :
    (shuffle seed rows).Perm rows := by
  have h := (List.perm_insertionSort keyLE ((lcgStream seed rows.length).zip rows)).map Prod.snd
  rwa [List.map_snd_zip _ _ (lcgStream_length seed rows.length).ge] at h

/-- C1: for every dataset, every ratio in (0,1) and every seed, the split
succeeds, the training and evaluation subsets together are a rearrangement
of the input rows (so they are disjoint as a partition: no row is
duplicated or omitted), and the operation is deterministic — two calls with
the same (dataset, ratio, seed) give the same result. -/
theorem train_test_split_partition {α : Type*} (rows : List α) (testSize : ℚ)
    (randomState : ℕ) (h0 : 0 < testSize) (h1 : testSize < 1) :
    ∃ train test, train_test_split rows testSize randomState = Except.ok (train, test) ∧
      (train ++ test).Perm rows ∧
      ∀ out1 out2 : Except SplitError (List α × List α),
        train_test_split rows testSize randomState = out1 →
        train_test_split rows testSize randomState = out2 → out1 = out2 := by
  refine ⟨(shuffle randomState rows).drop (⌈testSize * (rows.length : ℚ)⌉.toNat),
    (shuffle randomState rows).take (⌈testSize * (rows.length : ℚ)⌉.toNat), ?_, ?_, ?_⟩
  · rw [train_test_split, if_pos ⟨h0, h1⟩]
  · refine List.perm_append_comm.trans ?_
    rw [List.take_append_drop]
    exact shuffle_perm randomState rows
  · intro out1 out2 e1 e2
    rw [← e1, ← e2]

/-- Witness for C1 at a concrete five-row dataset with the notebook's seed
42 and ratio 1/5. -/
theorem train_test_split_partition_witness :
    ∃ train test,
      train_test_split ([10, 20, 30, 40, 50] : List ℚ) (1 / 5) 42 = Except.ok (train, test) ∧
      (train ++ test).Perm [10, 20, 30, 40, 50] ∧
      ∀ out1 out2 : Except SplitError (List ℚ × List ℚ),
        train_test_split [10, 20, 30, 40, 50] (1 / 5) 42 = out1 →
        train_test_split [10, 20, 30, 40, 50] (1 / 5) 42 = out2 → out1 = out2 :=
  train_test_split_partition [10, 20, 30, 40, 50] (1 / 5) 42 (by norm_num) (by norm_num)

/-- Dividing every mapped element by a constant divides the sum. -/
theorem listSum_map_div (l : List ℝ) (g : ℝ → ℝ) (c : ℝ) :
    (l.map fun x => g x / c).sum = (l.map g).sum / c := by
  induction l with
  | nil => simp
  | cons a t ih => simp [ih, add_div]

/-- Subtracting a constant from every element shifts the sum by length
times the constant. -/
theorem listSum_map_sub_const (l : List ℝ) (c : ℝ) :
    (l.map fun x => x - c).sum = l.sum - l.length * c := by
  induction l with
  | nil => simp
  | cons a t ih =>
    simp only [List.map_cons, List.sum_cons, List.length_cons, ih]
    push_cast
    ring

/-- The population variance of a real column is non-negative. -/
theorem varianceR_nonneg (l : List ℝ) : 0 ≤ varianceR l := by
  apply div_nonneg
  · apply List.sum_nonneg
    intro x hx
    obtain ⟨a, _, rfl⟩ := List.mem_map.mp hx
    positivity
  · positivity

/-- The sum of a non-empty column is its length times its mean. -/
theorem listSum_eq_length_mul_meanR (l : List ℝ) (h : l ≠ []) :
    l.sum = l.length * meanR l := by
  have hlen : (l.length : ℝ) ≠ 0 :=
    Nat.cast_ne_zero.mpr fun hh => h (List.length_eq_zero.mp hh)
  rw [meanR]
  field_simp

/-- C4: for a non-empty training column of non-zero variance, applying the
fitted standardization `(x - mean) / std` to that same column yields a
column of mean 0, variance 1 and standard deviation 1; the transform's
parameters are those of the training column (`standardize train`). -/
theorem standardize_mean_var (train : List ℝ) (hne : train ≠ [])
    (hv : varianceR train ≠ 0) :
    meanR (fitTransformFeature train) = 0 ∧
    varianceR (fitTransformFeature train) = 1 ∧
    stdR (fitTransformFeature train) = 1 := by
  have hlen : (train.length : ℝ) ≠ 0 :=
    Nat.cast_ne_zero.mpr fun hh => hne (List.length_eq_zero.mp hh)
  have hv0 : 0 ≤ varianceR train := varianceR_nonneg train
  have hvpos : 0 < varianceR train := lt_of_le_of_ne hv0 (Ne.symm hv)
  have hσ : stdR train ≠ 0 := Real.sqrt_ne_zero'.mpr hvpos
  have hσ2 : stdR train ^ 2 = varianceR train := Real.sq_sqrt hv0
  have hftlen : (fitTransformFeature train).length = train.length := by
    simp [fitTransformFeature]
  have hsum : (fitTransformFeature train).sum = 0 := by
    unfold fitTransformFeature standardize
    rw [listSum_map_div, listSum_map_sub_const, listSum_eq_length_mul_meanR train hne]
    simp
  have hmean : meanR (fitTransformFeature train) = 0 := by
    rw [meanR, hsum, zero_div]
  have hSq : (train.map fun x => (x - meanR train) ^ 2).sum
      = varianceR train * train.length := by
    rw [varianceR]
    field_simp
  have hvar : varianceR (fitTransformFeature train) = 1 := by
    rw [varianceR, hmean, hftlen]
    unfold fitTransformFeature standardize
    rw [List.map_map]
    have heq : ((fun x => (x - 0) ^ 2) ∘ fun x => (x - meanR train) / stdR train)
        = fun x => ((x - meanR train) ^ 2) / stdR train ^ 2 := by
      funext x
      rw [Function.comp_apply, sub_zero, div_pow]
    rw [heq, listSum_map_div, hSq, hσ2]
    field_simp
  exact ⟨hmean, hvar, by rw [stdR, hvar, Real.sqrt_one]⟩

/-- Witness for C4 at the concrete training column [1, 3] (mean 2,
variance 1). -/
theorem standardize_mean_var_witness :
    (([1, 3] : List ℝ) ≠ []) ∧ varianceR ([1, 3] : List ℝ) ≠ 0 ∧
      (meanR (fitTransformFeature [1, 3]) = 0 ∧
       varianceR (fitTransformFeature [1, 3]) = 1 ∧
       stdR (fitTransformFeature [1, 3]) = 1) :=
  ⟨by simp, by norm_num [varianceR, meanR],
    standardize_mean_var [1, 3] (by simp) (by norm_num [varianceR, meanR])⟩

/-- C7 counterexample: the ANOVA preparation step changes the loaded
dataset, so not every stage after loading leaves it unchanged. -/
theorem anovaPrepStage_modifies :
    anovaPrepStage [("bmi", ColumnData.nums [1, 2, 3, 4])] ≠
      [("bmi", ColumnData.nums [1, 2, 3, 4])] := by
  intro h
  have hlen := congrArg List.length h
  simp [anovaPrepStage] at hlen

/-- C7 amended: the ANOVA preparation step only appends the one derived
column `bmi_quartile`: every existing column, row and value of the loaded
dataset is left in place unchanged. -/
theorem anovaPrepStage_appends (df : Dataset) :
    (anovaPrepStage df).take df.length = df ∧
    (anovaPrepStage df).map Prod.fst = df.map Prod.fst ++ ["bmi_quartile"] ∧
    (anovaPrepStage df).length = df.length + 1 := by
  refine ⟨?_, by simp [anovaPrepStage], by simp [anovaPrepStage]⟩
  rw [anovaPrepStage]
  exact List.take_left df _

/-- A counting ratio `a / (a + b)` (0 when the denominator vanishes) lies
in [0, 1]. -/
theorem countRatio_bounds (a b : ℕ) :
    0 ≤ (if a + b = 0 then (0 : ℚ) else (a : ℚ) / ((a : ℚ) + (b : ℚ))) ∧
      (if a + b = 0 then (0 : ℚ) else (a : ℚ) / ((a : ℚ) + (b : ℚ))) ≤ 1 := by
  split
  · norm_num
  · rename_i h
    have hpos : 0 < (a : ℚ) + (b : ℚ) := by
      have hn : 0 < a + b := Nat.pos_of_ne_zero h
      exact_mod_cast hn
    constructor
    · exact div_nonneg (Nat.cast_nonneg a) hpos.le
    · rw [div_le_one hpos]
      exact le_add_of_nonneg_right (Nat.cast_nonneg b)

/-- The harmonic-mean formula `2pr/(p+r)` (0 when the denominator
vanishes) lies in [0, 1] whenever p and r do. -/
theorem f1_formula_bounds (p r : ℚ) (hp0 : 0 ≤ p) (hp1 : p ≤ 1) (hr0 : 0 ≤ r)
    (hr1 : r ≤ 1) :
    0 ≤ (if p + r = 0 then (0 : ℚ) else 2 * p * r / (p + r)) ∧
      (if p + r = 0 then (0 : ℚ) else 2 * p * r / (p + r)) ≤ 1 := by
  split
  · norm_num
  · rename_i h
    have hpos : 0 < p + r := lt_of_le_of_ne (by linarith) (Ne.symm h)
    constructor
    · exact div_nonneg (by positivity) hpos.le
    · rw [div_le_one hpos]
      nlinarith [mul_nonneg hp0 (sub_nonneg.mpr hr1), mul_nonneg hr0 (sub_nonneg.mpr hp1)]

/-- The accuracy fraction lies in [0, 1]. -/
theorem accuracy_score_bounds (yTrue yPred : List ℕ) :
    0 ≤ accuracy_score yTrue yPred ∧ accuracy_score yTrue yPred ≤ 1 := by
  rw [accuracy_score]
  constructor
  · positivity
  · rcases Nat.eq_zero_or_pos yTrue.length with h | h
    · rw [h]
      norm_num
    · rw [div_le_one (by exact_mod_cast h)]
      have hle : (yTrue.zip yPred).countP (fun p => p.1 == p.2) ≤ yTrue.length :=
        le_trans (List.countP_le_length _)
          (by rw [List.length_zip]; exact Nat.min_le_left _ _)
      exact_mod_cast hle

/-- The supports of the report's classes add up to the number of
evaluation rows. -/
theorem support_sum_nat (yTrue yPred : List ℕ) :
    ∑ c ∈ classLabels yTrue yPred, support yTrue c = yTrue.length := by
  have hzero : ∀ c ∈ yTrue.toFinset ∪ yPred.toFinset,
      c ∉ yTrue.toFinset → support yTrue c = 0 := by
    intro c _ hc
    rw [support]
    exact List.count_eq_zero.mpr fun hmem => hc (List.mem_toFinset.mpr hmem)
  rw [classLabels, ← Finset.sum_subset Finset.subset_union_left hzero]
  simp only [support]
  simp [Multiset.toFinset_sum_count_eq (yTrue : Multiset ℕ)]

/-- The weighted-average F1 lies between the least and the greatest
per-class F1. -/
theorem weightedF1_between (yTrue yPred : List ℕ) (hlen : yTrue ≠ [])
    (hne : (classLabels yTrue yPred).Nonempty) :
    (classLabels yTrue yPred).inf' hne (f1C yTrue yPred) ≤ weightedF1 yTrue yPred ∧
      weightedF1 yTrue yPred ≤ (classLabels yTrue yPred).sup' hne (f1C yTrue yPred) := by
  have hn : (yTrue.length : ℚ) ≠ 0 :=
    Nat.cast_ne_zero.mpr fun hh => hlen (List.length_eq_zero.mp hh)
  have hwsum : ∑ c ∈ classLabels yTrue yPred, (support yTrue c : ℚ) / yTrue.length = 1 := by
    rw [← Finset.sum_div, ← Nat.cast_sum, support_sum_nat yTrue yPred]
    exact div_self hn
  have hw0 : ∀ c ∈ classLabels yTrue yPred, 0 ≤ (support yTrue c : ℚ) / yTrue.length :=
    fun c _ => div_nonneg (Nat.cast_nonneg _) (Nat.cast_nonneg _)
  constructor
  · have h1 : (classLabels yTrue yPred).inf' hne (f1C yTrue yPred)
        = ∑ c ∈ classLabels yTrue yPred, ((support yTrue c : ℚ) / yTrue.length)
            * (classLabels yTrue yPred).inf' hne (f1C yTrue yPred) := by
      rw [← Finset.sum_mul, hwsum, one_mul]
    rw [h1, weightedF1]
    apply Finset.sum_le_sum
    intro c hc
    exact mul_le_mul_of_nonneg_left (Finset.inf'_le _ hc) (hw0 c hc)
  · have h2 : (classLabels yTrue yPred).sup' hne (f1C yTrue yPred)
        = ∑ c ∈ classLabels yTrue yPred, ((support yTrue c : ℚ) / yTrue.length)
            * (classLabels yTrue yPred).sup' hne (f1C yTrue yPred) := by
      rw [← Finset.sum_mul, hwsum, one_mul]
    rw [weightedF1, h2]
    apply Finset.sum_le_sum
    intro c hc
    exact mul_le_mul_of_nonneg_left (Finset.le_sup' _ hc) (hw0 c hc)

/-- C8: the reported accuracy equals correct predictions over evaluation
rows and lies in [0, 1]; every per-class precision, recall and F1 lies in
[0, 1]; and the weighted-average F1 lies between the least and the
greatest per-class F1. -/
theorem classification_metrics (yTrue yPred : List ℕ) (hlen : yTrue ≠ [])
    (hne : (classLabels yTrue yPred).Nonempty) :
    accuracy_score yTrue yPred
        = (((yTrue.zip yPred).countP fun p => p.1 == p.2 : ℕ) : ℚ) / yTrue.length ∧
    (0 ≤ accuracy_score yTrue yPred ∧ accuracy_score yTrue yPred ≤ 1) ∧
    (∀ c : ℕ, (0 ≤ precisionC yTrue yPred c ∧ precisionC yTrue yPred c ≤ 1) ∧
        (0 ≤ recallC yTrue yPred c ∧ recallC yTrue yPred c ≤ 1) ∧
        (0 ≤ f1C yTrue yPred c ∧ f1C yTrue yPred c ≤ 1)) ∧
    ((classLabels yTrue yPred).inf' hne (f1C yTrue yPred) ≤ weightedF1 yTrue yPred ∧
      weightedF1 yTrue yPred ≤ (classLabels yTrue yPred).sup' hne (f1C yTrue yPred)) := by
  refine ⟨rfl, accuracy_score_bounds yTrue yPred, ?_, weightedF1_between yTrue yPred hlen hne⟩
  intro c
  have hp : 0 ≤ precisionC yTrue yPred c ∧ precisionC yTrue yPred c ≤ 1 := by
    simp only [precisionC]
    exact countRatio_bounds _ _
  have hr : 0 ≤ recallC yTrue yPred c ∧ recallC yTrue yPred c ≤ 1 := by
    simp only [recallC]
    exact countRatio_bounds _ _
  have hf : 0 ≤ f1C yTrue yPred c ∧ f1C yTrue yPred c ≤ 1 := by
    simp only [f1C]
    exact f1_formula_bounds _ _ hp.1 hp.2 hr.1 hr.2
  exact ⟨hp, hr, hf⟩

/-- Witness for C8 at a concrete evaluation column of three rows and two
classes. -/
theorem classification_metrics_witness :
    ([0, 1, 1] : List ℕ) ≠ [] ∧ (classLabels [0, 1, 1] [0, 1, 0]).Nonempty ∧
      (0 ≤ accuracy_score [0, 1, 1] [0, 1, 0] ∧ accuracy_score [0, 1, 1] [0, 1, 0] ≤ 1) :=
  ⟨by simp, by decide, (classification_metrics [0, 1, 1] [0, 1, 0] (by simp) (by decide)).2.1⟩

/-- The ascending sort is a permutation of the column. -/
theorem sortedAsc_perm (l : List ℚ) : (sortedAsc l).Perm l :=
  List.perm_insertionSort _ l

/-- The ascending sort is sorted. -/
theorem sortedAsc_sorted (l : List ℚ) : (sortedAsc l).Sorted (· ≤ ·) :=
  List.sorted_insertionSort _ l

/-- Sorting preserves length. -/
theorem sortedAsc_length (l : List ℚ) : (sortedAsc l).length = l.length :=
  (sortedAsc_perm l).length_eq

/-- The first element of the ascending sort bounds every element below. -/
theorem sortedAsc_first_le (l : List ℚ) (i : ℕ) (hi : i < (sortedAsc l).length) :
    (sortedAsc l).getD 0 0 ≤ (sortedAsc l).getD i 0 := by
  have h0 : 0 < (sortedAsc l).length := lt_of_le_of_lt (Nat.zero_le i) hi
  rw [List.getD_eq_getElem _ _ h0, List.getD_eq_getElem _ _ hi]
  have h := (sortedAsc_sorted l).rel_get_of_le (a := ⟨0, h0⟩) (b := ⟨i, hi⟩)
    (Fin.mk_le_mk.mpr (Nat.zero_le i))
  simpa using h

/-- The median of a non-empty column is at least its least element. -/
theorem first_le_medianQ (l : List ℚ) (h : l ≠ []) :
    (sortedAsc l).getD 0 0 ≤ medianQ l := by
  have hlen : 0 < (sortedAsc l).length := by
    rw [sortedAsc_length]
    exact List.length_pos.mpr h
  rw [medianQ]
  split
  · exact sortedAsc_first_le l _ (Nat.div_lt_self hlen (by norm_num))
  · have ha := sortedAsc_first_le l ((sortedAsc l).length / 2 - 1)
      (lt_of_le_of_lt (Nat.sub_le _ 1) (Nat.div_lt_self hlen (by norm_num)))
    have hb := sortedAsc_first_le l ((sortedAsc l).length / 2)
      (Nat.div_lt_self hlen (by norm_num))
    linarith

/-- C10: the median split of the two-sample t-test assigns every row to
exactly one group (the two groups together are a rearrangement of the
dataset), rows whose target equals the median go to the lower group, and
for a non-empty dataset the lower group is non-empty. -/
theorem median_split (df : List DRow) :
    (group1Rows df ++ group2Rows df).Perm df ∧
    (∀ r ∈ df, r.target = medianTarget df → r ∈ group1Rows df) ∧
    (df ≠ [] → group1Rows df ≠ []) := by
  refine ⟨?_, ?_, ?_⟩
  · have hfil : group2Rows df
        = df.filter fun r => !(decide (r.target ≤ medianTarget df)) := by
      rw [group2Rows]
      apply List.filter_congr
      intro r _
      rw [← decide_not]
      exact decide_eq_decide.mpr not_le.symm
    rw [hfil, group1Rows]
    exact List.filter_append_perm _ df
  · intro r hr hm
    refine List.mem_filter.mpr ⟨hr, ?_⟩
    rw [hm]
    exact decide_eq_true (le_refl _)
  · intro hne
    have hmapne : df.map DRow.target ≠ [] := by
      simpa using hne
    have hslen : 0 < (sortedAsc (df.map DRow.target)).length := by
      rw [sortedAsc_length]
      exact List.length_pos.mpr hmapne
    have hmem0 : (sortedAsc (df.map DRow.target)).getD 0 0 ∈ df.map DRow.target := by
      refine (sortedAsc_perm _).mem_iff.mp ?_
      rw [List.getD_eq_getElem _ _ hslen]
      exact List.getElem_mem hslen
    obtain ⟨r, hrdf, hrt⟩ := List.mem_map.mp hmem0
    have hrle : r.target ≤ medianTarget df := by
      rw [medianTarget, hrt]
      exact first_le_medianQ _ hmapne
    exact List.ne_nil_of_mem (List.mem_filter.mpr ⟨hrdf, decide_eq_true hrle⟩)

/-- Witness for C10 at a concrete two-row dataset. -/
theorem median_split_witness :
    ([⟨1, 10⟩, ⟨2, 20⟩] : List DRow) ≠ [] ∧
      group1Rows [⟨1, 10⟩, ⟨2, 20⟩] ≠ [] :=
  ⟨by simp, (median_split [⟨1, 10⟩, ⟨2, 20⟩]).2.2 (by simp)⟩

end Spec2Proof
